import Mathlib

/-!
Verification of the noise-estimation / variance-stabilizing-transform (VST) core
of the CaImAn repository.  The repository ships the notebook
`demos/notebooks/demo_VST.ipynb`, which drives the core through
`estimate_vst_movie`, `compute_gat` and `compute_inverse_gat`; the core itself
(`caiman.external.houghvst`) is external to the sources at hand, so its
operations are modelled from the specification and checked against it.
-/

namespace VST

/-- Error kinds of the core. -/
inductive Err where
  | insufficientSamples
  | invalidArgument
  deriving DecidableEq, Repr

/-- A movie: an ordered list of frames, each frame a 2-D grid given as a list
of rows of pixel values. -/
abbrev Movie (α : Type) := List (List (List α))

/-- Optional pixel access by (frame, row, col). -/
def pixel? (m : Movie α) (t i j : ℕ) : Option α :=
  ((m[t]?).bind fun frame => frame[i]?).bind fun row => row[j]?

/-- Shape of a movie: the frame count together with, per frame, the row count
and each row's length. -/
def shape (m : Movie α) : ℕ × List (ℕ × List ℕ) :=
  (m.length, m.map fun frame => (frame.length, frame.map List.length))

/-- Elementwise map over every pixel of a movie. -/
def pixelMap (f : α → β) (m : Movie α) : Movie β :=
  m.map (List.map (List.map f))

/-- Modelled from the spec: the pixelwise generalized Anscombe transform of
`compute_gat` (whose implementation, `caiman.external.houghvst.gat`, is not
among the sources; only its notebook caller is).  For a pixel value `y`:
`z = (2/alpha) * sqrt(max 0 (alpha*y + alpha^2*(3/8) + sigma_sq - alpha*mu))`,
the radicand clamped at zero before the square root. -/
noncomputable def gatPixel (alpha sigma_sq mu y : ℝ) : ℝ :=
  (2 / alpha) * Real.sqrt (max 0 (alpha * y + alpha ^ 2 * (3 / 8) + sigma_sq - alpha * mu))

/-- Modelled from the spec: ForwardGAT over a whole movie, elementwise across
pixels and frames; argument order follows the caller
`compute_gat(movie, sigma_sq, alpha=alpha)` with the optional offset `mu`. -/
noncomputable def compute_gat (m : Movie ℝ) (sigma_sq alpha mu : ℝ) : Movie ℝ :=
  pixelMap (gatPixel alpha sigma_sq mu) m

theorem pixel?_pixelMap (f : α → β) (m : Movie α) (t i j : ℕ) :
    pixel? (pixelMap f m) t i j = (pixel? m t i j).map f := by
  unfold pixel? pixelMap
  cases ht : m[t]? with
  | none => simp [List.getElem?_map, ht]
  | some frame =>
    simp only [List.getElem?_map, ht, Option.map_some]
    cases hi : frame[i]? with
    | none => simp [List.getElem?_map, hi]
    | some row => simp [List.getElem?_map, hi]

/-- Modelled from the spec: the closed-form algebraic inverse of the forward
formula (the `algebraic` variant), obtained by solving the forward equation for
`y`; cheapest, least accurate near zero. -/
noncomputable def invAlgebraicPixel (alpha sigma_sq mu z : ℝ) : ℝ :=
  (alpha / 4) * z ^ 2 - alpha * (3 / 8) - sigma_sq / alpha + mu

/-- Modelled from the spec: the pixel formula selected by `method`.  The spec
states the `asymptotic_unbiased` correction coefficients and the
`exact_unbiased` lookup only by contract, intentionally leaving the numeric
formulas open; both are modelled by the algebraic closed form here, which the
dispatch and shape claims settled below do not distinguish. -/
noncomputable def invPixel (_method : String) (alpha sigma_sq mu z : ℝ) : ℝ :=
  invAlgebraicPixel alpha sigma_sq mu z

/-- The recognized inverse-transform method names. -/
def recognizedMethods : List String := ["exact_unbiased", "asymptotic_unbiased", "algebraic"]

/-- Modelled from the spec: InverseGAT over a whole movie.  An unrecognized
`method` fails fast with `InvalidArgument`; otherwise the selected pixel
formula is applied elementwise. -/
noncomputable def compute_inverse_gat (m : Movie ℝ) (sigma_sq alpha mu : ℝ) (method : String) :
    Except Err (Movie ℝ) :=
  if method ∈ recognizedMethods then
    Except.ok (pixelMap (invPixel method alpha sigma_sq mu) m)
  else
    Except.error Err.invalidArgument

/-! ## Noise-model estimation (PatchSampler, LocalStatsEstimator, NoiseModelFitter)

The estimation side involves only field arithmetic, so it is embedded over ℚ
and is fully computable. -/

/-- Modelled from the spec: the grid coordinates along one axis of length
`len` for patch size `P` at stride `S`: origins on the regular stride grid
whose patch fits entirely inside the frame (a trailing partial patch is
discarded, not truncated or padded). -/
def gridCoords (len P S : ℕ) : List ℕ :=
  (List.range len).filter fun r => decide (r % S = 0 ∧ r + P ≤ len)

/-- Modelled from the spec: PatchSampler — the patch origins of an `H × W`
frame for patch size `P` at spatial stride `S`. -/
def patchOrigins (H W P S : ℕ) : List (ℕ × ℕ) :=
  (gridCoords H P S).flatMap fun r => (gridCoords W P S).map fun c => (r, c)

/-- Frame indices `{0, T, 2T, …}` below `n`. -/
def strideIndices (n T : ℕ) : List ℕ :=
  (List.range n).filter fun i => decide (i % T = 0)

/-- Temporal subsample of a movie: the frames at indices `{0, T, 2T, …}`. -/
def temporalSubsample (m : List α) (T : ℕ) : List α :=
  (strideIndices m.length T).filterMap fun i => m[i]?

/-- Pixel of one frame at (row, col), defaulting to 0 out of bounds (patches
produced by the sampler are always in bounds). -/
def framePixelD (frame : List (List ℚ)) (i j : ℕ) : ℚ :=
  (((frame[i]?).bind fun row => row[j]?).getD 0)

/-- The `P × P` block of pixel values of one frame at origin `o`. -/
def patchValues (frame : List (List ℚ)) (o : ℕ × ℕ) (P : ℕ) : List ℚ :=
  (List.range P).flatMap fun dr => (List.range P).map fun dc =>
    framePixelD frame (o.1 + dr) (o.2 + dc)

/-- Modelled from the spec: the pooled sample of a patch — its pixel values
across the temporally strided subsample of frames, space and strided time
flattened together. -/
def pooledSample (m : Movie ℚ) (T : ℕ) (o : ℕ × ℕ) (P : ℕ) : List ℚ :=
  (temporalSubsample m T).flatMap fun frame => patchValues frame o P

/-- Sample mean of a pooled sample. -/
def sampleMean (xs : List ℚ) : ℚ := xs.sum / (xs.length : ℚ)

/-- Unbiased sample variance of a pooled sample. -/
def sampleVar (xs : List ℚ) : ℚ :=
  (xs.map fun x => (x - sampleMean xs) ^ 2).sum / ((xs.length : ℚ) - 1)

/-- Modelled from the spec: LocalStatsEstimator — one (local mean, local
variance) StatsSample per patch. -/
def statsSample (m : Movie ℚ) (T : ℕ) (o : ℕ × ℕ) (P : ℕ) : ℚ × ℚ :=
  (sampleMean (pooledSample m T o P), sampleVar (pooledSample m T o P))

/-- Frame height of a movie (row count of its first frame). -/
def movieH (m : Movie ℚ) : ℕ := ((m.head?).map List.length).getD 0

/-- Frame width of a movie (length of the first row of its first frame). -/
def movieW (m : Movie ℚ) : ℕ := (((m.head?).bind List.head?).map List.length).getD 0

/-- All StatsSamples of a movie, one per sampled patch. -/
def allSamples (m : Movie ℚ) (P S T : ℕ) : List (ℚ × ℚ) :=
  (patchOrigins (movieH m) (movieW m) P S).map fun o => statsSample m T o P

/-- Modelled from the spec: the non-degenerate StatsSamples — a patch whose
pooled variance is zero (no dynamic range) is excluded from the fit. -/
def validSamples (m : Movie ℚ) (P S T : ℕ) : List (ℚ × ℚ) :=
  (allSamples m P S T).filter fun s => decide (s.2 ≠ 0)

/-- Modelled from the spec: the ordinary-least-squares slope of
`variance ≈ alpha·mean + sigma_sq` over the valid samples. -/
def fitAlpha (samples : List (ℚ × ℚ)) : ℚ :=
  let n : ℚ := (samples.length : ℚ)
  let sx := (samples.map Prod.fst).sum
  let sy := (samples.map Prod.snd).sum
  let sxx := (samples.map fun s => s.1 ^ 2).sum
  let sxy := (samples.map fun s => s.1 * s.2).sum
  (n * sxy - sx * sy) / (n * sxx - sx ^ 2)

/-- Modelled from the spec: the ordinary-least-squares intercept of
`variance ≈ alpha·mean + sigma_sq` over the valid samples. -/
def fitSigmaSq (samples : List (ℚ × ℚ)) : ℚ :=
  ((samples.map Prod.snd).sum - fitAlpha samples * (samples.map Prod.fst).sum) /
    (samples.length : ℚ)

/-- Modelled from the spec: `estimate_noise_model` — validates the arguments,
collects the StatsSamples, excludes degenerate ones, fails with
`InsufficientSamples` when fewer than `minValid` remain, and otherwise returns
the fitted `(alpha, sigma_sq)` with a negative fit of either parameter clamped
to zero (never an error). -/
def estimate_noise_model (m : Movie ℚ) (P S T minValid : ℕ) : Except Err (ℚ × ℚ) :=
  if P = 0 ∨ S = 0 ∨ T = 0 then Except.error Err.invalidArgument
  else if (validSamples m P S T).length < minValid then Except.error Err.insufficientSamples
  else Except.ok (max (fitAlpha (validSamples m P S T)) 0,
                  max (fitSigmaSq (validSamples m P S T)) 0)

/-! ## The notebook pipeline (`main` of `demos/notebooks/demo_VST.ipynb`)

The caller centers the movie, estimates the noise model once from a temporal
subsample, and applies the forward transform with that one model to the full
movie. -/

/-- Global mean intensity of a movie (the notebook subtracts it before
estimating). -/
def movieMean (m : Movie ℚ) : ℚ :=
  (m.map fun f => (f.map List.sum).sum).sum /
    (((m.map fun f => (f.map List.length).sum).sum : ℕ) : ℚ)

/-- The movie with its global mean subtracted from every pixel. -/
def centerMovie (m : Movie ℚ) : Movie ℚ :=
  pixelMap (fun y => y - movieMean m) m

/-- Cast a rational movie to a real movie. -/
def castMovie (m : Movie ℚ) : Movie ℝ :=
  pixelMap (fun q : ℚ => (q : ℝ)) m

/-- The notebook pipeline: center the movie, estimate `(alpha, sigma_sq)` once
from the temporally subsampled movie, then apply ForwardGAT with that single
model to every frame of the full-resolution movie. -/
noncomputable def runPipeline (m : Movie ℚ) (Tsub P S T minValid : ℕ) :
    Except Err ((ℚ × ℚ) × Movie ℝ) :=
  match estimate_noise_model (temporalSubsample (centerMovie m) Tsub) P S T minValid with
  | Except.error e => Except.error e
  | Except.ok p =>
      Except.ok (p, compute_gat (castMovie (centerMovie m)) ((p.2 : ℝ)) ((p.1 : ℝ)) 0)

/-! ## Claims -/

/-- C1: for every movie, noise model and offset, the forward transform maps
the pixel at any coordinate to
`(2/alpha) * sqrt(max 0 (alpha*y + alpha^2*(3/8) + sigma_sq - alpha*mu))`
where `y` is the corresponding input pixel; a negative radicand is clamped to
0 before the square root, never an error. -/
theorem claim_C1 (m : Movie ℝ) (alpha sigma_sq mu : ℝ) (t i j : ℕ) :
    pixel? (compute_gat m sigma_sq alpha mu) t i j =
      (pixel? m t i j).map fun y =>
        (2 / alpha) * Real.sqrt (max 0 (alpha * y + alpha ^ 2 * (3 / 8) + sigma_sq - alpha * mu)) := by
  rw [compute_gat, pixel?_pixelMap]
  rfl

/-- C3: for fixed (alpha, sigma_sq) with alpha > 0 and fixed mu, the forward
transform is non-decreasing in its pixel input. -/
theorem claim_C3 (alpha sigma_sq mu y1 y2 : ℝ) (ha : 0 < alpha) (h : y1 ≤ y2) :
    gatPixel alpha sigma_sq mu y1 ≤ gatPixel alpha sigma_sq mu y2 := by
  unfold gatPixel
  have h2 : (0 : ℝ) ≤ 2 / alpha := by positivity
  refine mul_le_mul_of_nonneg_left ?_ h2
  refine Real.sqrt_le_sqrt (max_le_max le_rfl ?_)
  have := mul_le_mul_of_nonneg_left h ha.le
  linarith

/-- Witness for C3 at a concrete instance. -/
theorem claim_C3_witness : gatPixel 1 0 0 1 ≤ gatPixel 1 0 0 2 :=
  claim_C3 1 0 0 1 2 (by norm_num) (by norm_num)

/-- C10: the forward transform is total over negative pixel values: for every
real pixel value y, the result is a well-defined nonnegative real, and when the
radicand is nonpositive the clamp makes the output exactly 0 rather than an
error. -/
theorem claim_C10 (alpha sigma_sq mu y : ℝ) (ha : 0 < alpha) :
    0 ≤ gatPixel alpha sigma_sq mu y ∧
      (alpha * y + alpha ^ 2 * (3 / 8) + sigma_sq - alpha * mu ≤ 0 →
        gatPixel alpha sigma_sq mu y = 0) := by
  constructor
  · unfold gatPixel
    positivity
  · intro h
    unfold gatPixel
    rw [max_eq_left h, Real.sqrt_zero, mul_zero]

/-- Witness for C10 at a concrete negative pixel value. -/
theorem claim_C10_witness :
    0 ≤ gatPixel 1 0 0 (-1) ∧
      ((1 : ℝ) * (-1) + 1 ^ 2 * (3 / 8) + 0 - 1 * 0 ≤ 0 → gatPixel 1 0 0 (-1) = 0) :=
  claim_C10 1 0 0 (-1) (by norm_num)

/-- C4: for every transformed movie and noise model, an unrecognized method
value makes the inverse transform fail with `InvalidArgument`, returning no
(partially processed) movie. -/
theorem claim_C4 (m : Movie ℝ) (sigma_sq alpha mu : ℝ) (method : String)
    (h : method ∉ recognizedMethods) :
    compute_inverse_gat m sigma_sq alpha mu method = Except.error Err.invalidArgument := by
  unfold compute_inverse_gat
  rw [if_neg h]

/-- Witness for C4: method `bogus` on a concrete movie. -/
theorem claim_C4_witness :
    compute_inverse_gat [[[0]]] 0 1 0 "bogus" = Except.error Err.invalidArgument :=
  claim_C4 [[[0]]] 0 1 0 "bogus" (by simp [recognizedMethods])

/-- C8: PatchSampler is a pure function of (H, W, P, S): a patch origin is
produced exactly when it lies on the stride grid and its whole `P × P` extent
fits inside the frame — trailing partial patches are discarded, never
truncated or padded. -/
theorem claim_C8 (H W P S : ℕ) (p : ℕ × ℕ) :
    p ∈ patchOrigins H W P S ↔
      p.1 % S = 0 ∧ p.1 + P ≤ H ∧ p.1 < H ∧ p.2 % S = 0 ∧ p.2 + P ≤ W ∧ p.2 < W := by
  obtain ⟨r, c⟩ := p
  unfold patchOrigins gridCoords
  simp only [List.mem_flatMap, List.mem_map, List.mem_filter, List.mem_range,
    decide_eq_true_eq, Prod.mk.injEq]
  constructor
  · rintro ⟨a, ⟨haH, ha0, haP⟩, b, ⟨hbW, hb0, hbP⟩, rfl, rfl⟩
    exact ⟨ha0, haP, haH, hb0, hbP, hbW⟩
  · rintro ⟨h1, h2, h3, h4, h5, h6⟩
    exact ⟨r, ⟨h3, h1, h2⟩, c, ⟨h6, h4, h5⟩, rfl, rfl⟩

/-- C9: the forward transform returns a movie of exactly the input's shape,
and each output pixel depends only on the corresponding input pixel and the
fixed parameters: two inputs agreeing at a pixel produce outputs agreeing at
that pixel. -/
theorem claim_C9 (m m' : Movie ℝ) (sigma_sq alpha mu : ℝ) (t i j : ℕ)
    (h : pixel? m t i j = pixel? m' t i j) :
    shape (compute_gat m sigma_sq alpha mu) = shape m ∧
      pixel? (compute_gat m sigma_sq alpha mu) t i j
        = pixel? (compute_gat m' sigma_sq alpha mu) t i j := by
  constructor
  · unfold shape compute_gat pixelMap
    simp [List.map_map, Function.comp_def]
  · rw [compute_gat, compute_gat, pixel?_pixelMap, pixel?_pixelMap, h]

/-- Witness for C9 at concrete movies agreeing at pixel (0,0,0). -/
theorem claim_C9_witness :
    shape (compute_gat [[[1, 2]]] 0 1 0) = shape [[[1, 2]]] ∧
      pixel? (compute_gat [[[1, 2]]] 0 1 0) 0 0 0
        = pixel? (compute_gat [[[1, 3]]] 0 1 0) 0 0 0 :=
  claim_C9 [[[1, 2]]] [[[1, 3]]] 0 1 0 0 0 0 (by simp [pixel?])

theorem sum_const_list (xs : List ℚ) (c : ℚ) (h : ∀ x ∈ xs, x = c) :
    xs.sum = (xs.length : ℚ) * c := by
  induction xs with
  | nil => simp
  | cons a l ih =>
    simp only [List.sum_cons, List.length_cons]
    rw [h a (by simp), ih fun x hx => h x (by simp [hx])]
    push_cast
    ring

theorem sampleMean_const (xs : List ℚ) (c : ℚ) (h : ∀ x ∈ xs, x = c) (hne : xs ≠ []) :
    sampleMean xs = c := by
  unfold sampleMean
  rw [sum_const_list xs c h]
  have hlen : (xs.length : ℚ) ≠ 0 := by
    exact_mod_cast List.length_pos.mpr hne |>.ne'
  field_simp

theorem sampleVar_const (xs : List ℚ) (c : ℚ) (h : ∀ x ∈ xs, x = c) :
    sampleVar xs = 0 := by
  rcases eq_or_ne xs [] with rfl | hne
  · simp [sampleVar]
  · have hm := sampleMean_const xs c h hne
    have hz : (xs.map fun x => (x - sampleMean xs) ^ 2).sum = 0 := by
      apply List.sum_eq_zero
      intro y hy
      rw [List.mem_map] at hy
      obtain ⟨x, hx, rfl⟩ := hy
      rw [h x hx, hm, sub_self]
      ring
    rw [sampleVar, hz, zero_div]

/-- C5: a movie in which every sampled patch has a constant pooled sample
(zero true variance) makes every StatsSample degenerate, and whenever fewer
than `minValid` non-degenerate samples remain after exclusion,
`estimate_noise_model` fails with `InsufficientSamples` and returns no noise
model. -/
theorem claim_C5 :
    (∀ (m : Movie ℚ) (P S T minValid : ℕ), ¬(P = 0 ∨ S = 0 ∨ T = 0) →
        (validSamples m P S T).length < minValid →
        estimate_noise_model m P S T minValid = Except.error Err.insufficientSamples) ∧
    (∀ (m : Movie ℚ) (P S T minValid : ℕ), ¬(P = 0 ∨ S = 0 ∨ T = 0) → 0 < minValid →
        (∀ o ∈ patchOrigins (movieH m) (movieW m) P S,
            ∃ c, ∀ x ∈ pooledSample m T o P, x = c) →
        estimate_noise_model m P S T minValid = Except.error Err.insufficientSamples) := by
  have gen : ∀ (m : Movie ℚ) (P S T minValid : ℕ), ¬(P = 0 ∨ S = 0 ∨ T = 0) →
      (validSamples m P S T).length < minValid →
      estimate_noise_model m P S T minValid = Except.error Err.insufficientSamples := by
    intro m P S T minValid hargs hlt
    unfold estimate_noise_model
    rw [if_neg hargs, if_pos hlt]
  refine ⟨gen, ?_⟩
  intro m P S T minValid hargs hmin hconst
  have hvalid : validSamples m P S T = [] := by
    unfold validSamples allSamples
    rw [List.filter_eq_nil_iff]
    intro s hs
    rw [List.mem_map] at hs
    obtain ⟨o, ho, rfl⟩ := hs
    obtain ⟨c, hc⟩ := hconst o ho
    simp [statsSample, sampleVar_const _ c hc]
  exact gen m P S T minValid hargs (by rw [hvalid]; simpa using hmin)

/-- C6: whenever enough valid samples remain (and the arguments are valid),
`estimate_noise_model` returns a noise model — never an error — whose
parameters are the least-squares fit clamped at zero: a negative fitted alpha
or sigma_sq comes out as exactly 0, and the result always satisfies
`alpha ≥ 0` and `sigma_sq ≥ 0`. -/
theorem claim_C6 (m : Movie ℚ) (P S T minValid : ℕ)
    (hargs : ¬(P = 0 ∨ S = 0 ∨ T = 0))
    (hcount : minValid ≤ (validSamples m P S T).length) :
    ∃ a s, estimate_noise_model m P S T minValid = Except.ok (a, s) ∧
      a = max (fitAlpha (validSamples m P S T)) 0 ∧
      s = max (fitSigmaSq (validSamples m P S T)) 0 ∧
      (fitAlpha (validSamples m P S T) < 0 → a = 0) ∧
      (fitSigmaSq (validSamples m P S T) < 0 → s = 0) ∧
      0 ≤ a ∧ 0 ≤ s := by
  refine ⟨_, _, ?_, rfl, rfl, ?_, ?_, le_max_right _ _, le_max_right _ _⟩
  · unfold estimate_noise_model
    rw [if_neg hargs, if_neg (Nat.not_lt.mpr hcount)]
  · intro hneg
    exact max_eq_right hneg.le
  · intro hneg
    exact max_eq_right hneg.le

/-- A one-frame 2×2 movie that is constant: every patch is spatially constant. -/
def demoConstMovie : Movie ℚ := [[[5, 5], [5, 5]]]

/-- A two-frame 1×1 movie with genuine temporal variance. -/
def demoVarMovie : Movie ℚ := [[[0]], [[2]]]

theorem demoConst_valid : validSamples demoConstMovie 2 1 1 = [] := by
  have hpatch : patchOrigins (movieH demoConstMovie) (movieW demoConstMovie) 2 1 = [(0, 0)] := by
    rfl
  have hpool : pooledSample demoConstMovie 1 (0, 0) 2 = [5, 5, 5, 5] := by rfl
  have hvar : sampleVar [(5 : ℚ), 5, 5, 5] = 0 := by
    refine sampleVar_const _ 5 ?_
    intro x hx
    simp at hx
    exact hx
  unfold validSamples allSamples
  rw [hpatch]
  simp only [List.map_cons, List.map_nil, statsSample, hpool, hvar]
  norm_num [List.filter_cons]

/-- Witness for C5: the constant demo movie yields `InsufficientSamples`. -/
theorem claim_C5_witness :
    estimate_noise_model demoConstMovie 2 1 1 1 = Except.error Err.insufficientSamples :=
  claim_C5.1 demoConstMovie 2 1 1 1 (by simp) (by rw [demoConst_valid]; simp)

theorem demoVar_valid : validSamples demoVarMovie 1 1 1 = [(1, 2)] := by
  have hpatch : patchOrigins (movieH demoVarMovie) (movieW demoVarMovie) 1 1 = [(0, 0)] := by
    rfl
  have hpool : pooledSample demoVarMovie 1 (0, 0) 1 = [0, 2] := by rfl
  have hmean : sampleMean [(0 : ℚ), 2] = 1 := by
    norm_num [sampleMean]
  have hvar : sampleVar [(0 : ℚ), 2] = 2 := by
    norm_num [sampleVar, hmean]
  unfold validSamples allSamples
  rw [hpatch]
  simp only [List.map_cons, List.map_nil, statsSample, hpool, hmean, hvar]
  norm_num [List.filter_cons]

/-- Witness for C6 on the demo movie with one valid sample. -/
theorem claim_C6_witness :
    ∃ a s, estimate_noise_model demoVarMovie 1 1 1 1 = Except.ok (a, s) ∧
      a = max (fitAlpha (validSamples demoVarMovie 1 1 1)) 0 ∧
      s = max (fitSigmaSq (validSamples demoVarMovie 1 1 1)) 0 ∧
      (fitAlpha (validSamples demoVarMovie 1 1 1) < 0 → a = 0) ∧
      (fitSigmaSq (validSamples demoVarMovie 1 1 1) < 0 → s = 0) ∧
      0 ≤ a ∧ 0 ≤ s :=
  claim_C6 demoVarMovie 1 1 1 1 (by simp) (by rw [demoVar_valid]; simp)

/-- C7: whenever the notebook pipeline succeeds, the noise model is the one
produced by the single estimation call on the (centered, temporally
subsampled) movie, and every pixel of every frame of the output is the forward
transform of the corresponding full-resolution input pixel with that one
unchanged model. -/
theorem claim_C7 (m : Movie ℚ) (Tsub P S T minValid : ℕ) (p : ℚ × ℚ) (out : Movie ℝ)
    (h : runPipeline m Tsub P S T minValid = Except.ok (p, out)) :
    estimate_noise_model (temporalSubsample (centerMovie m) Tsub) P S T minValid
      = Except.ok p ∧
      ∀ t i j, pixel? out t i j =
        (pixel? (castMovie (centerMovie m)) t i j).map
          (gatPixel ((p.1 : ℝ)) ((p.2 : ℝ)) 0) := by
  unfold runPipeline at h
  cases he : estimate_noise_model (temporalSubsample (centerMovie m) Tsub) P S T minValid with
  | error e =>
    rw [he] at h
    cases h
  | ok q =>
    rw [he] at h
    simp only [Except.ok.injEq, Prod.mk.injEq] at h
    obtain ⟨rfl, rfl⟩ := h
    refine ⟨rfl, fun t i j => ?_⟩
    rw [compute_gat, pixel?_pixelMap]

theorem demoPipeline_estimate :
    estimate_noise_model (temporalSubsample (centerMovie demoVarMovie) 1) 1 1 1 1
      = Except.ok (0, 2) := by
  have hmean : movieMean [[[(0 : ℚ)]], [[2]]] = 1 := by
    norm_num [movieMean]
  have hcenter : centerMovie demoVarMovie = [[[-1]], [[1]]] := by
    simp only [centerMovie, pixelMap, demoVarMovie, List.map_cons, List.map_nil, hmean]
    norm_num
  have hsub : temporalSubsample (centerMovie demoVarMovie) 1 = [[[-1]], [[1]]] := by
    rw [hcenter]
    rfl
  rw [hsub]
  have hpatch : patchOrigins (movieH [[[(-1 : ℚ)]], [[1]]]) (movieW [[[(-1 : ℚ)]], [[1]]]) 1 1
      = [(0, 0)] := by rfl
  have hpool : pooledSample [[[(-1 : ℚ)]], [[1]]] 1 (0, 0) 1 = [-1, 1] := by rfl
  have hmean2 : sampleMean [(-1 : ℚ), 1] = 0 := by norm_num [sampleMean]
  have hvar2 : sampleVar [(-1 : ℚ), 1] = 2 := by norm_num [sampleVar, hmean2]
  have hvalid : validSamples [[[(-1 : ℚ)]], [[1]]] 1 1 1 = [(0, 2)] := by
    unfold validSamples allSamples
    rw [hpatch]
    simp only [List.map_cons, List.map_nil, statsSample, hpool, hmean2, hvar2]
    norm_num [List.filter_cons]
  unfold estimate_noise_model
  rw [if_neg (by simp)]
  simp only [hvalid]
  norm_num [fitAlpha, fitSigmaSq]

/-- Witness for C7: the pipeline on the demo movie uses the single estimated
model (0, 2) on every frame. -/
theorem claim_C7_witness :
    estimate_noise_model (temporalSubsample (centerMovie demoVarMovie) 1) 1 1 1 1
      = Except.ok ((0 : ℚ), (2 : ℚ)) ∧
      ∀ t i j, pixel?
          (compute_gat (castMovie (centerMovie demoVarMovie)) (((2 : ℚ) : ℝ)) (((0 : ℚ) : ℝ)) 0)
          t i j =
        (pixel? (castMovie (centerMovie demoVarMovie)) t i j).map
          (gatPixel (((0 : ℚ) : ℝ)) (((2 : ℚ) : ℝ)) 0) :=
  claim_C7 demoVarMovie 1 1 1 1 1 (0, 2)
    (compute_gat (castMovie (centerMovie demoVarMovie)) (((2 : ℚ) : ℝ)) (((0 : ℚ) : ℝ)) 0)
    (by unfold runPipeline; rw [demoPipeline_estimate])

end VST
